import Mathlib

/-!
# drf-dynamic-read: verification of the projection / eager-load planning core

Shallow embedding of the repository's planning engine:

* `src/dynamic_read/dynamic_orm.py` — `get_final_fields` (the relation load
  planner), `get_all_select_prefetch` (the cached full plan) and
  `get_prefetch_select` (the plan narrower).  `src/dynamic_read/utils.py`
  and `DynamicReadSerializerMixin.evaluate_select_prefetch` in
  `src/dynamic_read/serializers.py` contain the same two algorithms verbatim;
  one embedding covers both copies.
* `src/serializers.py` — the depth-aware field-visibility decision of the
  `fields` property and the omit-path propagation of
  `process_fields_for_dynamic_read`.
* `src/dynamic_read/serializers.py` — the constructor's mutual-exclusion
  assert, `extract_serializer_from_child` and the nested-selector attachment
  loop of `derive_desired_fields`.

Django lookup paths ("school__name") are modelled as lists of characters
(`Str`); a serializer's type-level schema is the finite tree `Schema`, whose
fields are either plain (non-relational, or relational but rendered by a
field that is not a `DynamicReadSerializerMixin` — `get_final_fields` skips
both kinds) or nested sub-serializers with a `many` cardinality flag.
-/

namespace DrfDynamicRead

/-- A Python string, as the character list it wraps. -/
abbrev Str := List Char

/-- The characters of a string literal. -/
def seg (s : String) : Str := s.data

/-- The reserved Django lookup separator `"__"`. -/
def sep : Str := seg "__"

/-! ## The type-level schema of a serializer

`get_final_fields` iterates `serializer.fields.items()`, skips names that are
not relational fields of the model, skips relational fields whose serializer
field is not a `DynamicReadSerializerMixin`, and recurses into nested
serializers, with `is_many` telling a `ListSerializer` wrapper apart. -/

mutual
inductive Schema : Type where
  | mk : List SField → Schema
inductive SField : Type where
  | plain : Str → SField
  | nested : Str → Bool → Schema → SField
end

/-- One iteration of the loop body of `get_final_fields`
(src/dynamic_read/dynamic_orm.py lines 36-46): given `is_many`, the field's
full accessor path (`parent_accessor + field_name`) and the recursive
sub-plan, the (select, prefetch) contribution appended for this field:

    if sub_select_related:
        if not is_many: final_select.extend(sub_select_related)
        else:           final_prefetch.extend(sub_select_related)
    elif not is_many:   final_select.append(path)
    if sub_prefetch_related:
        final_prefetch.extend(sub_prefetch_related)
    elif is_many:       final_prefetch.append(path)
-/
def fieldContrib (is_many : Bool) (path : Str) (sub : List Str × List Str) :
    List Str × List Str :=
  ((if sub.1 ≠ [] then if is_many then [] else sub.1
    else if is_many then [] else [path]),
   (if sub.1 ≠ [] ∧ is_many then sub.1 else []) ++
     (if sub.2 ≠ [] then sub.2 else if is_many then [path] else []))

mutual
/-- `get_final_fields(serializer, parent_accessor)` of
src/dynamic_read/dynamic_orm.py lines 18-47 (identically
`DynamicReadSerializerMixin.evaluate_select_prefetch` of
src/dynamic_read/serializers.py lines 152-181): the depth-first full-plan
computation.  Recursive calls pass `parent_accessor + field_name + "__"`, so
every emitted path is already absolutely prefixed. -/
def get_final_fields : Schema → Str → List Str × List Str
  | .mk fs, acc => get_final_fields_loop fs acc
/-- The `for field_name, field_obj in serializer.fields.items()` loop of
`get_final_fields`, processing the remaining fields in order. -/
def get_final_fields_loop : List SField → Str → List Str × List Str
  | [], _ => ([], [])
  | .plain _ :: rest, acc => get_final_fields_loop rest acc
  | .nested name is_many child :: rest, acc =>
      let sub := get_final_fields child (acc ++ name ++ sep)
      let c := fieldContrib is_many (acc ++ name) sub
      let r := get_final_fields_loop rest acc
      (c.1 ++ r.1, c.2 ++ r.2)
end

/-- `get_all_select_prefetch(serializer_class)` of
src/dynamic_read/dynamic_orm.py lines 50-55: the cached full plan, i.e.
`get_final_fields` started with an empty parent accessor. -/
def get_all_select_prefetch (s : Schema) : List Str × List Str :=
  get_final_fields s []

/-! ## The plan narrower -/

/-- The bidirectional string-prefix test the narrower applies:
`each.startswith(field) or field.startswith(each)`
(src/dynamic_read/dynamic_orm.py lines 78-88 and 98-116, identically
src/dynamic_read/utils.py lines 16-26 and 36-54). -/
def bidiMatch (each field : Str) : Bool :=
  field.isPrefixOf each || each.isPrefixOf field

/-- The allow-matching stage of `get_prefetch_select`: the loop
`for field in request_fields: final_select.extend(each for each in all_select
if each.startswith(field) or field.startswith(each))`
(src/dynamic_read/dynamic_orm.py lines 74-88), for one of the two lists. -/
def allowNarrow (all_paths : List Str) (request_fields : List Str) : List Str :=
  request_fields.flatMap fun field => all_paths.filter fun each => bidiMatch each field

/-- The omit-filtering stage of `get_prefetch_select`: the comprehension
`[each for each in final if not any(each.startswith(field) or
field.startswith(each) for field in request_omit_fields)]`
(src/dynamic_read/dynamic_orm.py lines 96-116). -/
def omitNarrow (paths : List Str) (request_omit_fields : List Str) : List Str :=
  paths.filter fun each => ! request_omit_fields.any fun field => bidiMatch each field

/-- The body of `get_prefetch_select(serializer_class, request_fields,
request_omit_fields)` (src/dynamic_read/dynamic_orm.py lines 66-118,
identically src/dynamic_read/utils.py lines 5-56) once the cached full plan
`allPlan` has been fetched:

    if not request_fields and not request_omit_fields:
        return all_select, all_prefetch
    for field in request_fields: ...            # allowNarrow, per list
    if request_omit_fields:
        if not final_select:   final_select = all_select
        if not final_prefetch: final_prefetch = all_prefetch
        final_select = [...]                    # omitNarrow, per list
        final_prefetch = [...]
    return final_select, final_prefetch
-/
def narrowPlan (allPlan : List Str × List Str)
    (request_fields request_omit_fields : List Str) : List Str × List Str :=
  if request_fields = [] ∧ request_omit_fields = [] then allPlan
  else
    let final_select := allowNarrow allPlan.1 request_fields
    let final_prefetch := allowNarrow allPlan.2 request_fields
    if request_omit_fields ≠ [] then
      (omitNarrow (if final_select = [] then allPlan.1 else final_select)
        request_omit_fields,
       omitNarrow (if final_prefetch = [] then allPlan.2 else final_prefetch)
        request_omit_fields)
    else (final_select, final_prefetch)

/-- `get_prefetch_select(serializer_class, request_fields,
request_omit_fields)`: fetch the serializer's cached full plan, then narrow
it for this request. -/
def get_prefetch_select (s : Schema)
    (request_fields request_omit_fields : List Str) : List Str × List Str :=
  narrowPlan (get_all_select_prefetch s) request_fields request_omit_fields

/-! ## The data model's segment-wise paths (spec §3)

The spec's data model compares paths "by the prefix relation" over ordered
sequences of field-name segments.  The planner's output paths are joined
strings, so the segment sequence of an emitted path is recovered by splitting
at the reserved `"__"` marker, exactly as Python's `"a__b".split("__")`. -/

/-- `s.split("__")` on the character list representation: every occurrence of
the two-character marker ends a segment. -/
def segSplit : Str → List Str
  | [] => [[]]
  | '_' :: '_' :: rest => [] :: segSplit rest
  | c :: rest =>
      match segSplit rest with
      | s :: ss => (c :: s) :: ss
      | [] => [[c]]

/-- Modelled from the spec (§3 data model): path `A` is relevant to path `B`
if the segment sequence of one is a leading subsequence of the other's. -/
def segBidi (a b : Str) : Bool :=
  (segSplit a).isPrefixOf (segSplit b) || (segSplit b).isPrefixOf (segSplit a)

/-! ## The full plan as claim C1 words it, and as amended

Both definitions compute relative paths and prefix each absorbed sub-path
with the current field's path segment plus the separating marker, following
the wording of spec §4.3. -/

mutual
/-- Modelled from the spec's collapsing rule as claim C1 states it: absorbed
sub-select-paths go to select (single-valued) or prefetch (multi-valued);
when the sub-plan yields NO select-paths the relation's own path is appended
to select (single-valued) or prefetch (multi-valued); sub-prefetch-paths are
always appended to prefetch. -/
def fullPlanClaim : Schema → List Str × List Str
  | .mk fs => fullPlanClaimLoop fs
/-- Field-by-field loop of `fullPlanClaim`. -/
def fullPlanClaimLoop : List SField → List Str × List Str
  | [] => ([], [])
  | .plain _ :: rest => fullPlanClaimLoop rest
  | .nested name is_many child :: rest =>
      let sub := fullPlanClaim child
      let selC : List Str :=
        if sub.1 ≠ [] then (if is_many then [] else sub.1.map fun p => name ++ sep ++ p)
        else if is_many then [] else [name]
      let preC : List Str :=
        (if sub.1 ≠ [] then (if is_many then sub.1.map fun p => name ++ sep ++ p else [])
         else if is_many then [name] else []) ++
          sub.2.map fun p => name ++ sep ++ p
      let r := fullPlanClaimLoop rest
      (selC ++ r.1, preC ++ r.2)
end

mutual
/-- The amended C1 collapsing rule, as the code has it: as claimed for the
select side, but on the prefetch side the relation's own path is appended
exactly when the relation is multi-valued and the sub-plan yields no
PREFETCH-paths (regardless of its select-paths), after any absorbed
sub-select-paths. -/
def fullPlanAmended : Schema → List Str × List Str
  | .mk fs => fullPlanAmendedLoop fs
/-- Field-by-field loop of `fullPlanAmended`. -/
def fullPlanAmendedLoop : List SField → List Str × List Str
  | [] => ([], [])
  | .plain _ :: rest => fullPlanAmendedLoop rest
  | .nested name is_many child :: rest =>
      let sub := fullPlanAmended child
      let selC : List Str :=
        if sub.1 ≠ [] then (if is_many then [] else sub.1.map fun p => name ++ sep ++ p)
        else if is_many then [] else [name]
      let preC : List Str :=
        (if sub.1 ≠ [] ∧ is_many then sub.1.map fun p => name ++ sep ++ p else []) ++
          (if sub.2 ≠ [] then sub.2.map fun p => name ++ sep ++ p
           else if is_many then [name] else [])
      let r := fullPlanAmendedLoop rest
      (selC ++ r.1, preC ++ r.2)
end

/-! ## Concrete schemas used as inputs of counterexamples and witnesses -/

/-- A multi-valued relation `a` whose target has one single-valued relation
`b` (to a schema with no relations). -/
def schemaManySingle : Schema :=
  .mk [.nested (seg "a") true (.mk [.nested (seg "b") false (.mk [])])]

/-- One single-valued relation named `ab`: full plan select `["ab"]`. -/
def schemaAB : Schema := .mk [.nested (seg "ab") false (.mk [])]

/-- One single-valued relation named `a`: full plan select `["a"]`. -/
def schemaA : Schema := .mk [.nested (seg "a") false (.mk [])]

/-- Two single-valued relations `a` then `b`: full plan select `["a", "b"]`. -/
def schemaTwo : Schema :=
  .mk [.nested (seg "a") false (.mk []), .nested (seg "b") false (.mk [])]

/-- Modelled from the spec as claim C3 states it (§4.5): when omit-paths are
present, the narrowed lists are seeded from the full plan only if no
allow-paths were supplied at all; when allow-paths were supplied, the
allow-matched lists are used as they are, even if empty; afterwards every
omit-matched path is removed. -/
def narrowClaimC3 (allPlan : List Str × List Str)
    (request_fields request_omit_fields : List Str) : List Str × List Str :=
  (omitNarrow
    (if request_fields = [] then allPlan.1 else allowNarrow allPlan.1 request_fields)
    request_omit_fields,
   omitNarrow
    (if request_fields = [] then allPlan.2 else allowNarrow allPlan.2 request_fields)
    request_omit_fields)

/-- The amended C3 rule, as the code has it: when omit-paths are present,
each narrowed list is seeded from the corresponding full-plan list whenever
its allow-matching stage produced no paths — in particular also when
allow-paths were supplied but matched nothing, and independently for the
select and the prefetch list — and afterwards every omit-matched path is
removed. -/
def narrowAmendedC3 (allPlan : List Str × List Str)
    (request_fields request_omit_fields : List Str) : List Str × List Str :=
  (omitNarrow
    (if allowNarrow allPlan.1 request_fields = [] then allPlan.1
     else allowNarrow allPlan.1 request_fields)
    request_omit_fields,
   omitNarrow
    (if allowNarrow allPlan.2 request_fields = [] then allPlan.2
     else allowNarrow allPlan.2 request_fields)
    request_omit_fields)

/-! ## The planner on type-level schema GRAPHS, fuel-instrumented (C7)

`Schema` is a tree, so it cannot express a type-level cycle such as a
self-referencing serializer.  `SchemaGraph` keeps the node structure
abstract: a node is any value of `ν`, and `fieldsOf` lists its fields as
(name, is_many, plannable target or none).  `graph_final_fields` is
`get_final_fields` verbatim on such a graph, instrumented with a fuel
counter: one unit is consumed per node expansion, and exhausted fuel means
the recursion did not return within that depth.  The code has no cycle
detection, so nothing else stops the recursion. -/

structure SchemaGraph (ν : Type) where
  fieldsOf : ν → List (Str × Bool × Option ν)

mutual
/-- `get_final_fields` on a schema graph, returning `none` when the given
recursion depth budget is exhausted. -/
def graph_final_fields {ν : Type} (g : SchemaGraph ν) :
    Nat → ν → Str → Option (List Str × List Str)
  | 0, _, _ => none
  | fuel + 1, node, acc => graph_final_fields_loop g fuel (g.fieldsOf node) acc
/-- The field loop of `graph_final_fields`; a field with no plannable target
is skipped exactly as `get_final_fields` skips it. -/
def graph_final_fields_loop {ν : Type} (g : SchemaGraph ν) :
    Nat → List (Str × Bool × Option ν) → Str → Option (List Str × List Str)
  | _, [], _ => some ([], [])
  | fuel, (_, _, none) :: rest, acc => graph_final_fields_loop g fuel rest acc
  | fuel, (name, is_many, some child) :: rest, acc => do
      let sub ← graph_final_fields g fuel child (acc ++ name ++ sep)
      let r ← graph_final_fields_loop g fuel rest acc
      let c := fieldContrib is_many (acc ++ name) sub
      return (c.1 ++ r.1, c.2 ++ r.2)
end

/-- The one-node schema graph whose single field `this` is a single-valued
self-reference: the type-level picture of a serializer whose fields contain
a nested serializer of its own class. -/
def loopGraph : SchemaGraph Unit :=
  ⟨fun _ => [(seg "this", false, some ())]⟩

/-- A tree schema's field as a graph entry. -/
def SField.toEntry : SField → Str × Bool × Option Schema
  | .plain n => (n, false, none)
  | .nested n m c => (n, m, some c)

/-- Every tree schema viewed as a schema graph whose nodes are the subtrees
themselves. -/
def treeGraph : SchemaGraph Schema :=
  ⟨fun s => match s with | .mk fs => fs.map SField.toEntry⟩

mutual
/-- The relation-nesting depth of a tree schema: the fuel
`graph_final_fields` needs beyond it to terminate. -/
def heightS : Schema → Nat
  | .mk fs => heightFs fs
/-- Maximal relation-nesting depth over a field list. -/
def heightFs : List SField → Nat
  | [] => 0
  | .plain _ :: rest => heightFs rest
  | .nested _ _ c :: rest => max (heightS c + 1) (heightFs rest)
end

/-! ## The field selector engine (C5)

`src/serializers.py`, the `fields` property (lines 44-103): allow/omit paths
arrive split at `"__"` into segment lists; the property keeps a field iff it
survives the allow filter at the current depth and is not terminally
omitted there. -/

/-- `[filter_field[current_depth] for filter_field in filter_fields]`
(src/serializers.py lines 68-72): `none` models the IndexError Python raises
when an allow-path has no segment at the current depth. -/
def segment_at (paths : List (List Str)) (depth : Nat) : Option (List Str) :=
  paths.mapM fun p => p[depth]?

/-- The dynamic filtering of the `fields` property (src/serializers.py lines
58-103), as the set of field names kept out of `existing`:

* allow segments at `depth` are taken from every allow-path (IndexError —
  `none` — if one is too short), empties dropped; a non-empty remainder
  restricts `existing`, an empty one allows everything;
* omit segments at `depth` are taken only from omit-paths whose total length
  equals `depth + 1` (the omission is terminal exactly at this node),
  empties dropped;
* kept = allowed minus excluded.  The write-only patch of lines 89-97 only
  flips a flag on fields already present and never changes the key set, so
  it does not appear in this membership model. -/
def visible_fields (existing : List Str) (filter_fields omit_fields : List (List Str))
    (depth : Nat) : Option (List Str) :=
  match (if filter_fields ≠ [] then segment_at filter_fields depth else some []) with
  | none => none
  | some filterAt =>
      let omitAt := (omit_fields.filter fun o => decide (o.length = depth + 1)).map
        fun o => o.getD depth []
      let allowedSegs := filterAt.filter fun s => decide (s ≠ [])
      let allowed := if allowedSegs = [] then existing
        else existing.filter fun f => decide (f ∈ allowedSegs)
      let excluded := omitAt.filter fun s => decide (s ≠ [])
      some (allowed.filter fun f => decide (f ∉ excluded))

/-- The omit-path propagation of `process_fields_for_dynamic_read`
(src/serializers.py lines 180-183): every omit-path whose segment at the
current depth equals the child field's name is pushed, unchanged, onto the
child's omit list — no length condition, so longer paths keep propagating.
The source indexes `omit_field[current_depth]` directly; its callers reach a
depth only for paths that matched at every shallower depth, so the total
`getD` never falls back at reachable inputs. -/
def propagate_omit (omit_fields : List (List Str)) (child_name : Str) (depth : Nat) :
    List (List Str) :=
  omit_fields.filter fun o => decide (o.getD depth [] = child_name)

/-! ## Serializer construction (C8) -/

/-- The head of `DynamicReadSerializerMixin.__init__`
(src/dynamic_read/serializers.py lines 29-62): the mutual-exclusion check
`assert not bool(filter_fields and omit_fields)` — Python truthiness, so the
assert fires exactly when both collections are non-empty — followed by the
`dr_meta` computation, present exactly when either collection is non-empty
(its tree structure is irrelevant to claim C8 and abstracted to a unit).
`Except.error` is the raised `AssertionError`'s message. -/
def serializer_init (filter_fields omit_fields : List Str) :
    Except String (Option Unit) :=
  if filter_fields ≠ [] ∧ omit_fields ≠ [] then
    .error "Pass either filter_fields or omit_fields, not both"
  else .ok (if filter_fields ≠ [] ∨ omit_fields ≠ [] then some () else none)

/-! ## Nested selector attachment (C9) -/

/-- The shapes `extract_serializer_from_child` distinguishes: a
`DynamicReadSerializerMixin`, a `ListSerializer` wrapping some child, or any
other field object (e.g. a `PresentablePrimaryKeyRelatedField`). -/
inductive ChildField : Type where
  | drSerializer : ChildField
  | listWrapped : ChildField → ChildField
  | otherField : ChildField
deriving DecidableEq

/-- `extract_serializer_from_child` (src/dynamic_read/serializers.py lines
76-89): a `DynamicReadSerializerMixin` is returned as-is, a `ListSerializer`
whose child is one returns that child, and anything else raises
`ChildNotSupported(child)`. -/
def extract_serializer_from_child : ChildField → Except ChildField ChildField
  | .drSerializer => .ok .drSerializer
  | .listWrapped .drSerializer => .ok .drSerializer
  | c => .error c

/-- The nested-selector attachment loop of `derive_desired_fields`
(src/dynamic_read/serializers.py lines 102-108):

    for field, field_meta in self.dr_meta["nested"].items():
        try:
            nested_field = self.extract_serializer_from_child(fields_map[field])
            nested_field.dr_meta = field_meta
        except KeyError:
            continue

Only `KeyError` — the name being absent from `fields_map` — is caught and
silently skipped; a `ChildNotSupported` raised by the extraction propagates.
Returns the names that had a selector attached, or the first unsupported
child. -/
def attach_nested : List Str → List (Str × ChildField) → Except ChildField (List Str)
  | [], _ => .ok []
  | n :: rest, fields_map =>
      match fields_map.lookup n with
      | none => attach_nested rest fields_map
      | some cf => do
          let _ ← extract_serializer_from_child cf
          let l ← attach_nested rest fields_map
          pure (n :: l)

/-! ## Helper lemmas about the narrower -/

theorem mem_allowNarrow {p : Str} {l rf : List Str} :
    p ∈ allowNarrow l rf ↔ p ∈ l ∧ ∃ f ∈ rf, bidiMatch p f = true := by
  simp only [allowNarrow, List.mem_flatMap, List.mem_filter]
  tauto

theorem allowNarrow_subset (l rf : List Str) : allowNarrow l rf ⊆ l := by
  intro x hx
  exact (mem_allowNarrow.mp hx).1

theorem allowNarrow_single (l : List Str) (f : Str) :
    allowNarrow l [f] = l.filter fun each => bidiMatch each f := by
  simp [allowNarrow]

theorem narrowPlan_eq (allPlan : List Str × List Str) (rf ro : List Str) :
    narrowPlan allPlan rf ro =
      if rf = [] ∧ ro = [] then allPlan
      else if ro ≠ [] then
        (omitNarrow (if allowNarrow allPlan.1 rf = [] then allPlan.1
           else allowNarrow allPlan.1 rf) ro,
         omitNarrow (if allowNarrow allPlan.2 rf = [] then allPlan.2
           else allowNarrow allPlan.2 rf) ro)
      else (allowNarrow allPlan.1 rf, allowNarrow allPlan.2 rf) := rfl

theorem omitNarrow_sublist (l ro : List Str) : (omitNarrow l ro).Sublist l :=
  List.filter_sublist l

theorem omitNarrow_subset (l ro : List Str) : omitNarrow l ro ⊆ l :=
  (omitNarrow_sublist l ro).subset

theorem narrowPlan_fst_subset (allPlan : List Str × List Str) (rf ro : List Str) :
    (narrowPlan allPlan rf ro).1 ⊆ allPlan.1 := by
  unfold narrowPlan
  split
  · exact fun x hx => hx
  · split
    · intro x hx
      have hx' := omitNarrow_subset _ ro hx
      split at hx'
      · exact hx'
      · exact allowNarrow_subset _ rf hx'
    · exact allowNarrow_subset _ rf

theorem narrowPlan_snd_subset (allPlan : List Str × List Str) (rf ro : List Str) :
    (narrowPlan allPlan rf ro).2 ⊆ allPlan.2 := by
  unfold narrowPlan
  split
  · exact fun x hx => hx
  · split
    · intro x hx
      have hx' := omitNarrow_subset _ ro hx
      split at hx'
      · exact hx'
      · exact allowNarrow_subset _ rf hx'
    · exact allowNarrow_subset _ rf

theorem narrowPlan_sublist_short (allPlan : List Str × List Str) (rf ro : List Str)
    (h : rf.length ≤ 1) :
    (narrowPlan allPlan rf ro).1.Sublist allPlan.1 ∧
      (narrowPlan allPlan rf ro).2.Sublist allPlan.2 := by
  have main : ∀ l : List Str, (allowNarrow l rf).Sublist l := by
    intro l
    match rf, h with
    | [], _ => exact List.nil_sublist l
    | [f], _ =>
        rw [allowNarrow_single]
        exact List.filter_sublist l
  have branch : ∀ (l : List Str), (omitNarrow (if allowNarrow l rf = [] then l
      else allowNarrow l rf) ro).Sublist l := by
    intro l
    by_cases he : allowNarrow l rf = []
    · simpa [he] using omitNarrow_sublist l ro
    · simp only [he, if_neg, if_false]
      exact (omitNarrow_sublist _ ro).trans (main l)
  rw [narrowPlan_eq]
  split
  · exact ⟨List.Sublist.refl _, List.Sublist.refl _⟩
  · split
    · exact ⟨branch _, branch _⟩
    · exact ⟨main _, main _⟩

/-! ## Claim theorems -/

/-- C4: narrowing a cached full plan with an empty allow-path collection and
an empty omit-path collection returns the full plan unchanged: the select and
prefetch lists of `get_prefetch_select` equal the full plan's lists exactly
(src/dynamic_read/dynamic_orm.py lines 71-72). -/
theorem c4_empty_narrow_identity (s : Schema) :
    get_prefetch_select s [] [] = get_all_select_prefetch s := by
  simp [get_prefetch_select, narrowPlan]

/-- C10: for every serializer schema and every requested allow/omit tuple,
every path of the select list `get_prefetch_select` returns is an element of
that schema's full-plan select list, and every path of the returned prefetch
list is an element of the full-plan prefetch list: narrowing never introduces
a path absent from the full plan. -/
theorem c10_narrow_subset (s : Schema) (request_fields request_omit_fields : List Str) :
    (get_prefetch_select s request_fields request_omit_fields).1 ⊆
        (get_all_select_prefetch s).1 ∧
      (get_prefetch_select s request_fields request_omit_fields).2 ⊆
        (get_all_select_prefetch s).2 :=
  ⟨narrowPlan_fst_subset _ _ _, narrowPlan_snd_subset _ _ _⟩

/-- C2 counterexample: the claim asks for exactly the full-plan select-paths
related to a requested allow-path under the data model's segment-wise prefix
relation, but the code matches raw string prefixes.  For the schema whose
full plan select list is `["ab"]`, requesting `fields=a` keeps `"ab"` (string
prefix) although the one-segment path `["a"]` is not a segment-wise prefix of
the one-segment path `["ab"]` (nor conversely). -/
theorem c2_allow_match_counterexample :
    (get_all_select_prefetch schemaAB).1 = [seg "ab"] ∧
      seg "ab" ∈ (get_prefetch_select schemaAB [seg "a"] []).1 ∧
      segBidi (seg "ab") (seg "a") = false := by
  decide

/-- C2 (amended): for every full plan and non-empty collection of requested
allow-paths (and no omit-paths), the narrowed select list contains exactly
those full-plan select-paths `P` such that, for some requested allow-path
`F`, `P` is a string prefix of `F` or `F` is a string prefix of `P` (the
code's `each.startswith(field) or field.startswith(each)`); the same rule
applies independently to the prefetch list. -/
theorem c2_allow_match_amended (s : Schema) (request_fields : List Str)
    (h : request_fields ≠ []) (p : Str) :
    (p ∈ (get_prefetch_select s request_fields []).1 ↔
      p ∈ (get_all_select_prefetch s).1 ∧
        ∃ f ∈ request_fields, bidiMatch p f = true) ∧
    (p ∈ (get_prefetch_select s request_fields []).2 ↔
      p ∈ (get_all_select_prefetch s).2 ∧
        ∃ f ∈ request_fields, bidiMatch p f = true) := by
  have hros : (get_prefetch_select s request_fields []) =
      (allowNarrow (get_all_select_prefetch s).1 request_fields,
       allowNarrow (get_all_select_prefetch s).2 request_fields) := by
    rw [get_prefetch_select, narrowPlan_eq]
    simp [h]
  rw [hros]
  exact ⟨mem_allowNarrow, mem_allowNarrow⟩

/-- C2 witness: the amended characterization applied at the schema with full
plan select `["ab"]`, request `fields=a`, path `"ab"`. -/
theorem c2_allow_match_witness :
    ([seg "a"] ≠ ([] : List Str)) ∧
      (seg "ab" ∈ (get_prefetch_select schemaAB [seg "a"] []).1 ↔
        seg "ab" ∈ (get_all_select_prefetch schemaAB).1 ∧
          ∃ f ∈ [seg "a"], bidiMatch (seg "ab") f = true) :=
  ⟨by decide, (c2_allow_match_amended schemaAB [seg "a"] (by decide) (seg "ab")).1⟩

/-- C3 counterexample: for the schema whose full plan is `(["a"], [])`,
requesting `fields=zz` (matches nothing) together with `omit=q` makes the
code seed the select list from the full plan and return `["a"]`, while the
claim's rule — allow-paths were supplied, so their (empty) match result is
used as-is — would return nothing. -/
theorem c3_seeding_counterexample :
    get_prefetch_select schemaA [seg "zz"] [seg "q"] = ([seg "a"], []) ∧
      narrowClaimC3 (get_all_select_prefetch schemaA) [seg "zz"] [seg "q"] =
        ([], []) := by
  decide

/-- C3 (amended): when requested omit-paths are present, each narrowed list
is seeded from the corresponding full-plan list whenever its allow-matching
result is empty — also when allow-paths were supplied but matched nothing,
and independently for the select and prefetch lists — and afterwards every
path bidirectionally prefix-matched by a requested omit-path is removed. -/
theorem c3_seeding_amended (s : Schema) (request_fields request_omit_fields : List Str)
    (h : request_omit_fields ≠ []) :
    get_prefetch_select s request_fields request_omit_fields =
      narrowAmendedC3 (get_all_select_prefetch s) request_fields
        request_omit_fields := by
  rw [get_prefetch_select, narrowPlan_eq, narrowAmendedC3]
  simp [h]

/-- C3 witness: the amended rule applied at the schema with full plan
`(["a"], [])`, request `fields=zz`, `omit=q`. -/
theorem c3_seeding_witness :
    ([seg "q"] ≠ ([] : List Str)) ∧
      get_prefetch_select schemaA [seg "zz"] [seg "q"] =
        narrowAmendedC3 (get_all_select_prefetch schemaA) [seg "zz"] [seg "q"] :=
  ⟨by decide, c3_seeding_amended schemaA [seg "zz"] [seg "q"] (by decide)⟩

/-- C6 counterexample: for the schema with full plan select `["a", "b"]`,
requesting the allow-paths `b,a` returns the select list `["b", "a"]`, which
is not a subsequence of the full plan's list: the allow-matching loop runs
per requested field, so it can reorder (and duplicate) full-plan entries. -/
theorem c6_order_counterexample :
    (get_all_select_prefetch schemaTwo).1 = [seg "a", seg "b"] ∧
      (get_prefetch_select schemaTwo [seg "b", seg "a"] []).1 = [seg "b", seg "a"] ∧
      ¬ (get_prefetch_select schemaTwo [seg "b", seg "a"] []).1.Sublist
          (get_all_select_prefetch schemaTwo).1 := by
  decide

/-- C6 (amended): when at most one allow-path is requested (in particular
whenever only omit-paths are requested), each narrowed list is a subsequence
of the corresponding full-plan list — relative order preserved and no
duplicates beyond the full plan.  With two or more allow-paths the narrowed
lists are per-request-field concatenations of such subsequences and may
reorder or duplicate full-plan entries. -/
theorem c6_order_amended (s : Schema) (request_fields request_omit_fields : List Str)
    (h : request_fields.length ≤ 1) :
    (get_prefetch_select s request_fields request_omit_fields).1.Sublist
        (get_all_select_prefetch s).1 ∧
      (get_prefetch_select s request_fields request_omit_fields).2.Sublist
        (get_all_select_prefetch s).2 :=
  narrowPlan_sublist_short (get_all_select_prefetch s) request_fields
    request_omit_fields h

/-- C6 witness: the amended statement applied at the schema with full plan
select `["a", "b"]` and the single allow-path `a`. -/
theorem c6_order_witness :
    ([seg "a"] : List Str).length ≤ 1 ∧
      (get_prefetch_select schemaTwo [seg "a"] []).1.Sublist
          (get_all_select_prefetch schemaTwo).1 ∧
        (get_prefetch_select schemaTwo [seg "a"] []).2.Sublist
          (get_all_select_prefetch schemaTwo).2 :=
  ⟨by decide, c6_order_amended schemaTwo [seg "a"] [] (by decide)⟩

/-! ## The parent accessor only prefixes the plan -/

mutual
theorem get_final_fields_acc : ∀ (s : Schema) (acc : Str),
    get_final_fields s acc =
      ((get_final_fields s []).1.map (acc ++ ·),
       (get_final_fields s []).2.map (acc ++ ·))
  | .mk fs, acc => by
      simp only [get_final_fields]
      exact get_final_fields_loop_acc fs acc
theorem get_final_fields_loop_acc : ∀ (fs : List SField) (acc : Str),
    get_final_fields_loop fs acc =
      ((get_final_fields_loop fs []).1.map (acc ++ ·),
       (get_final_fields_loop fs []).2.map (acc ++ ·))
  | [], acc => by simp [get_final_fields_loop]
  | .plain n :: rest, acc => by
      simp only [get_final_fields_loop]
      exact get_final_fields_loop_acc rest acc
  | .nested n m c :: rest, acc => by
      have hc := get_final_fields_acc c (acc ++ n ++ sep)
      have hc0 := get_final_fields_acc c (n ++ sep)
      have hr := get_final_fields_loop_acc rest acc
      simp only [List.append_assoc] at hc hc0
      cases m <;>
        by_cases h1 : (get_final_fields c []).1 = [] <;>
          by_cases h2 : (get_final_fields c []).2 = [] <;>
            simp [get_final_fields_loop, fieldContrib, hc, hc0, hr, h1, h2,
              List.map_map, Function.comp_def, List.append_assoc]
end

/-! ## The code's plan in the amended claim C1 form -/

mutual
theorem full_plan_amended_aux : ∀ s : Schema,
    get_final_fields s [] = fullPlanAmended s
  | .mk fs => by
      simp only [get_final_fields, fullPlanAmended]
      exact full_plan_amended_loop_aux fs
theorem full_plan_amended_loop_aux : ∀ fs : List SField,
    get_final_fields_loop fs [] = fullPlanAmendedLoop fs
  | [] => rfl
  | .plain n :: rest => by
      simp only [get_final_fields_loop, fullPlanAmendedLoop]
      exact full_plan_amended_loop_aux rest
  | .nested n m c :: rest => by
      have hc0 := get_final_fields_acc c (n ++ sep)
      have hc := full_plan_amended_aux c
      have hr := full_plan_amended_loop_aux rest
      by_cases h1 : (fullPlanAmended c).1 = [] <;>
        by_cases h2 : (fullPlanAmended c).2 = [] <;>
          simp [get_final_fields_loop, fullPlanAmendedLoop, fieldContrib, hc0, hc, hr,
            h1, h2, List.map_map, Function.comp_def, List.append_assoc]
end

/-- C1 counterexample: for a multi-valued relation `a` whose sub-plan yields
the select-path `a__b` and no prefetch-paths, the code absorbs `a__b` into
prefetch AND appends the relation's own path `a` (because the sub-plan has no
prefetch-paths), while the claimed rule appends the own path only when the
sub-plan yields no SELECT-paths and so produces prefetch `["a__b"]` alone. -/
theorem c1_collapsing_counterexample :
    get_final_fields schemaManySingle [] = ([], [seg "a__b", seg "a"]) ∧
      fullPlanClaim schemaManySingle = ([], [seg "a__b"]) := by
  decide

/-- C1 (amended): the full plan is computed by depth-first recursion with the
claimed collapsing rule on the select side — absorbed sub-select-paths go to
select for a single-valued relation and to prefetch for a multi-valued one,
each prefixed with the current field's path segment and separator, and a
single-valued relation whose sub-plan yields no select-paths contributes its
own path to select — while on the prefetch side sub-prefetch-paths are always
appended, prefixed, and a multi-valued relation contributes its own path
exactly when its sub-plan yields no prefetch-paths. -/
theorem c1_collapsing_amended (s : Schema) :
    get_all_select_prefetch s = fullPlanAmended s :=
  full_plan_amended_aux s

/-! ## C7: no cycle detection — the self-loop never finishes, trees do -/

theorem loopGraph_fieldsOf : loopGraph.fieldsOf () = [(seg "this", false, some ())] :=
  rfl

theorem loopGraph_none : ∀ (fuel : Nat) (acc : Str),
    graph_final_fields loopGraph fuel () acc = none := by
  intro fuel
  induction fuel with
  | zero => intro acc; simp [graph_final_fields]
  | succ f ih =>
      intro acc
      simp [graph_final_fields, loopGraph_fieldsOf, graph_final_fields_loop, ih]

mutual
theorem graph_tree_aux : ∀ (s : Schema) (fuel : Nat) (acc : Str), heightS s < fuel →
    graph_final_fields treeGraph fuel s acc = some (get_final_fields s acc)
  | .mk fs, fuel + 1, acc, h => by
      have hf : heightFs fs ≤ fuel := by
        have h' : heightFs fs < fuel + 1 := by simpa [heightS] using h
        omega
      have h1 := graph_tree_loop_aux fs fuel acc hf
      simpa [graph_final_fields, get_final_fields, treeGraph] using h1
theorem graph_tree_loop_aux : ∀ (fs : List SField) (fuel : Nat) (acc : Str),
    heightFs fs ≤ fuel →
    graph_final_fields_loop treeGraph fuel (fs.map SField.toEntry) acc =
      some (get_final_fields_loop fs acc)
  | [], fuel, acc, _ => by simp [graph_final_fields_loop, get_final_fields_loop]
  | .plain n :: rest, fuel, acc, h => by
      have hr : heightFs rest ≤ fuel := by simpa [heightFs] using h
      have h1 := graph_tree_loop_aux rest fuel acc hr
      simpa [graph_final_fields_loop, get_final_fields_loop, SField.toEntry] using h1
  | .nested n m c :: rest, fuel, acc, h => by
      have hc : heightS c < fuel := by
        have := h; simp [heightFs] at this; omega
      have hr : heightFs rest ≤ fuel := by
        have := h; simp [heightFs] at this; omega
      have h1 := graph_tree_aux c fuel (acc ++ n ++ sep) hc
      have h2 := graph_tree_loop_aux rest fuel acc hr
      simp only [List.append_assoc] at h1
      simp [graph_final_fields_loop, get_final_fields_loop, SField.toEntry, h1, h2,
        List.append_assoc]
end

/-- C7 counterexample: on the one-node self-referencing schema graph the
planner's recursion never returns — no recursion depth budget suffices —
whereas the claim asks for termination with the direct relation path as a
leaf.  The code walks `serializer.fields` with no visited set, so a
type-level cycle is never detected. -/
theorem c7_cycle_counterexample :
    ¬ ∃ (fuel : Nat) (r : List Str × List Str),
        graph_final_fields loopGraph fuel () [] = some r := by
  rintro ⟨fuel, r, h⟩
  rw [loopGraph_none fuel []] at h
  exact Option.noConfusion h

/-- C7 (amended): the planner terminates on every finite ACYCLIC (tree-
shaped) type-level schema graph — with any fuel beyond the schema's
relation-nesting depth the fuel-instrumented recursion completes and
computes exactly `get_final_fields` — but the code performs no cycle
detection, and on a type-level cycle (e.g. a self-referencing relation) the
recursion never terminates. -/
theorem c7_termination_amended (s : Schema) (fuel : Nat) (acc : Str)
    (h : heightS s < fuel) :
    graph_final_fields treeGraph fuel s acc = some (get_final_fields s acc) :=
  graph_tree_aux s fuel acc h

/-- C7 witness: the schema with one single-valued relation has depth 1, and
with fuel 2 the instrumented planner returns its plan. -/
theorem c7_termination_witness :
    heightS schemaA < 2 ∧
      graph_final_fields treeGraph 2 schemaA [] =
        some (get_final_fields schemaA []) :=
  ⟨by decide, c7_termination_amended schemaA 2 [] (by decide)⟩

/-- C5: with no allow filtering in play, the `fields` property excludes a
field on account of an omit-path exactly when some omit-path's total length
equals `depth + 1` and its segment at `depth` is the field (the omission is
terminal at this node); longer omit-paths exclude nothing at the current
level and only propagate (`propagate_omit`) to deeper levels.  In particular
omit-list `["address__city"]` at depth 0 on `{id, name, address}` leaves the
visible set unchanged, while the `address` child evaluating the same path at
depth 1 excludes `city`. -/
theorem c5_terminal_omit (existing : List Str) (omit_fields : List (List Str))
    (depth : Nat) (f : Str) (hf : f ≠ []) :
    ∃ l, visible_fields existing [] omit_fields depth = some l ∧
      (f ∈ l ↔ f ∈ existing ∧
        ¬ ∃ o ∈ omit_fields, o.length = depth + 1 ∧ o.getD depth [] = f) := by
  refine ⟨_, rfl, ?_⟩
  rw [List.mem_filter]
  simp only [decide_eq_true_eq]
  constructor
  · rintro ⟨hmem, hnot⟩
    refine ⟨hmem, ?_⟩
    rintro ⟨o, ho, hlen, hseg⟩
    apply hnot
    refine List.mem_filter.mpr ⟨List.mem_map.mpr ⟨o, List.mem_filter.mpr ⟨ho, by simpa using hlen⟩, hseg⟩, by simpa using hf⟩
  · rintro ⟨hmem, hnot⟩
    refine ⟨hmem, ?_⟩
    intro hin
    have hin' := List.mem_filter.mp hin
    obtain ⟨o, ho, hseg⟩ := List.mem_map.mp hin'.1
    have ho' := List.mem_filter.mp ho
    exact hnot ⟨o, ho'.1, by simpa using ho'.2, hseg⟩

/-- C5 witness: the scenario of the claim at depth 0 — the omit-path
`address__city` has length 2 ≠ 1, so `address` stays visible. -/
theorem c5_terminal_omit_witness :
    (seg "address" ≠ ([] : Str)) ∧
      ∃ l, visible_fields [seg "id", seg "name", seg "address"] []
          [[seg "address", seg "city"]] 0 = some l ∧
        (seg "address" ∈ l ↔
          seg "address" ∈ [seg "id", seg "name", seg "address"] ∧
            ¬ ∃ o ∈ [[seg "address", seg "city"]], o.length = 0 + 1 ∧
              o.getD 0 [] = seg "address") :=
  ⟨by decide, c5_terminal_omit [seg "id", seg "name", seg "address"]
    [[seg "address", seg "city"]] 0 (seg "address") (by decide)⟩

/-- C8: serializer construction raises (the assert of
`DynamicReadSerializerMixin.__init__`) exactly when both `filter_fields` and
`omit_fields` are non-empty, and succeeds — returning a selector meta iff
either collection is non-empty — whenever at most one of the two is
non-empty. -/
theorem c8_mutual_exclusion (filter_fields omit_fields : List Str) :
    ((∃ v, serializer_init filter_fields omit_fields = .ok v) ↔
      (filter_fields = [] ∨ omit_fields = [])) ∧
    (filter_fields ≠ [] ∧ omit_fields ≠ [] →
      serializer_init filter_fields omit_fields =
        .error "Pass either filter_fields or omit_fields, not both") := by
  by_cases h1 : filter_fields = [] <;> by_cases h2 : omit_fields = [] <;>
    simp [serializer_init, h1, h2]

/-- C9 counterexample: a nested selector naming the field `x` whose entry in
the field map is an unsupported shape makes `derive_desired_fields` raise
`ChildNotSupported(x's field)` — the `try` only catches `KeyError` — rather
than silently skipping the child as the claim states. -/
theorem c9_child_error_counterexample :
    attach_nested [seg "x"] [(seg "x", ChildField.otherField)] =
      .error ChildField.otherField := rfl

/-- C9 (amended): propagation of a nested selector is silently skipped only
when the named child field is absent from the serializer's field map (the
lookup's `KeyError` is caught); attachment completes without error exactly
when every named child that IS present in the field map extracts to a
supported nested serializer — a present child of unrecognized shape raises
`ChildNotSupported` at serialization time. -/
theorem except_error_bind {ε α β : Type} (e : ε) (f : α → Except ε β) :
    (Except.error e >>= f) = Except.error e := rfl

theorem except_ok_bind {ε α β : Type} (a : α) (f : α → Except ε β) :
    (Except.ok a >>= f) = f a := rfl

theorem c9_child_error_amended (nested : List Str)
    (fields_map : List (Str × ChildField)) :
    (∃ l, attach_nested nested fields_map = .ok l) ↔
      ∀ n ∈ nested, ∀ cf, fields_map.lookup n = some cf →
        ∃ c, extract_serializer_from_child cf = .ok c := by
  induction nested with
  | nil => simp [attach_nested]
  | cons n rest ih =>
      simp only [List.forall_mem_cons]
      cases hl : fields_map.lookup n with
      | none =>
          simp only [attach_nested, hl]
          rw [ih]
          constructor
          · intro h
            refine ⟨fun cf hcf => ?_, h⟩
            exact absurd hcf (by simp)
          · intro h
            exact h.2
      | some cf =>
          cases he : extract_serializer_from_child cf with
          | error e =>
              simp only [attach_nested, hl, he]
              constructor
              · rintro ⟨l, hok⟩
                rw [except_error_bind] at hok
                exact Except.noConfusion hok
              · rintro ⟨hn, _⟩
                obtain ⟨c, hc⟩ := hn cf rfl
                rw [he] at hc
                exact Except.noConfusion hc
          | ok c =>
              simp only [attach_nested, hl, he]
              cases hr : attach_nested rest fields_map with
              | error e =>
                  constructor
                  · rintro ⟨l, hok⟩
                    rw [except_error_bind] at hok
                    exact Except.noConfusion hok
                  · rintro ⟨_, hrest⟩
                    obtain ⟨l, hl2⟩ := ih.mpr hrest
                    rw [hr] at hl2
                    exact Except.noConfusion hl2
              | ok l =>
                  constructor
                  · intro _
                    refine ⟨fun cf' hcf' => ?_, ih.mp ⟨l, hr⟩⟩
                    injection hcf' with hcf2
                    subst hcf2
                    exact ⟨c, he⟩
                  · intro _
                    exact ⟨n :: l, rfl⟩

end DrfDynamicRead
